import Mathlib

/-!
Verification development for the MQTT Voyager message history and topic
tree subsystem.  The definitions below are shallow embeddings of the
TypeScript sources:

* `MessageHistory` — the better-sqlite3 backed store; the database table
  is modelled as a `List MqttMessage` in row insertion order, SQL
  `ORDER BY timestamp DESC` as a stable descending sort, and SQL `LIKE`
  as the character matcher `likeMatch` (case-insensitive for ASCII, as
  in SQLite).
* `TopicTree` — src/src/services/mqtt/TopicTree.ts; the `Map` of child
  nodes is modelled as a list of nodes in insertion order (`Map.set` on a
  present key replaces in place, a new key is appended).
* the ingestion handler wired up by `initializeServices` in
  src/src/index.ts.

The store embedding omits the `payloadSearch` FTS join and the unused
`connectionId` filter field: no claim touches them, and `searchMessages`
in the source builds no condition from `connectionId` at all.
-/

/-- One MQTT message record, as stored in the `messages` table and passed
around the services (shared/types `MqttMessage`).  The payload is a raw
byte sequence. -/
structure MqttMessage where
  id : String
  topic : String
  payload : List Nat
  qos : Nat
  retained : Bool
  timestamp : Int
  connectionId : Option String
  deriving DecidableEq, Repr

/-- Query descriptor for `MessageHistory.searchMessages` (shared/types
`MessageFilter`).  Absent fields impose no constraint.  JavaScript
truthiness of the source is preserved: a present but zero/empty value is
treated like an absent one wherever the source tests `if (filter.x)`. -/
structure MessageFilter where
  topic : Option String
  startTime : Option Int
  endTime : Option Int
  qos : Option Nat
  retained : Option Bool
  limit : Option Nat
  offset : Option Nat
  deriving DecidableEq, Repr

/-- The filter with every field absent, i.e. the `{}` default. -/
def emptyFilter : MessageFilter :=
  { topic := none, startTime := none, endTime := none, qos := none,
    retained := none, limit := none, offset := none }

/-- JavaScript string split on the slash character: every occurrence of
the separator splits, empty segments are kept, and the empty string
yields one empty segment. -/
def splitSlash : List Char → List (List Char)
  | [] => [[]]
  | c :: rest =>
    match splitSlash rest with
    | [] => []
    | seg :: segs => if c = '/' then [] :: seg :: segs else (c :: seg) :: segs

/-- `topic.split('/')` of the source, producing the list of segment
strings. -/
def splitTopic (s : String) : List String :=
  (splitSlash s.data).map (fun l => String.mk l)

/-- `str.includes(ch)` of the source, on the underlying characters. -/
def containsChar (s : String) (c : Char) : Bool :=
  s.data.contains c

/-- The SQL LIKE pattern built by `searchMessages` for a wildcard topic
filter: every `+` and every `#` is replaced by `%`
(`filter.topic.replace(/\+/g, '%').replace(/#/g, '%')`). -/
def likePatternOf (s : String) : List Char :=
  s.data.map (fun c => if c = '+' ∨ c = '#' then '%' else c)

/-- SQLite `LIKE` matching: `%` matches any sequence of characters
(possibly empty, including `/`), `_` matches exactly one character, and
every other pattern character matches itself up to ASCII case folding
(SQLite LIKE is case-insensitive for ASCII by default).  A `%` consumes
an arbitrary amount of the subject, expressed by matching the remaining
pattern against some suffix of the subject. -/
def likeMatch : List Char → List Char → Bool
  | [], s => s.isEmpty
  | '%' :: ps, s => s.tails.any (fun t => likeMatch ps t)
  | '_' :: ps, s =>
    (match s with
     | [] => false
     | _ :: s2 => likeMatch ps s2)
  | p :: ps, s =>
    (match s with
     | [] => false
     | c :: s2 => p.toLower == c.toLower && likeMatch ps s2)

/-- Stable insertion into a timestamp-descending list: the new row goes
after all rows with an equal or larger timestamp. -/
def insertDesc (m : MqttMessage) : List MqttMessage → List MqttMessage
  | [] => [m]
  | x :: xs => if x.timestamp < m.timestamp then m :: x :: xs else x :: insertDesc m xs

/-- `ORDER BY timestamp DESC` of the source queries, modelled as a stable
descending sort (rows with equal timestamps keep insertion order). -/
def sortByTimestampDesc (l : List MqttMessage) : List MqttMessage :=
  l.foldr insertDesc []

/-- Truthiness of `filter.limit` / `filter.offset` in the source:
present and nonzero. -/
def natTruthy : Option Nat → Bool
  | none => false
  | some n => !(n == 0)

/-- The row predicate assembled by `searchMessages`: conjunction of the
topic condition (LIKE for wildcard patterns, equality otherwise), the
time range, the qos equality and the retained equality.  Fields failing
the truthiness test of the source contribute no condition. -/
def rowCondition (f : MessageFilter) (m : MqttMessage) : Bool :=
  (match f.topic with
   | none => true
   | some t =>
     if t == "" then true
     else if containsChar t '+' || containsChar t '#' then
       likeMatch (likePatternOf t) m.topic.data
     else m.topic == t) &&
  (match f.startTime with
   | none => true
   | some st => if st == 0 then true else decide (st ≤ m.timestamp)) &&
  (match f.endTime with
   | none => true
   | some et => if et == 0 then true else decide (m.timestamp ≤ et)) &&
  (match f.qos with
   | none => true
   | some q => m.qos == q) &&
  (match f.retained with
   | none => true
   | some r => m.retained == r)

/-- LIMIT/OFFSET application of the generated SQL: with a truthy limit
`n` and truthy offset `o` the query reads `LIMIT n OFFSET o` (skip `o`
rows of the ordered result, then return at most `n`); with only a truthy
limit it reads `LIMIT n`; with neither, all rows are returned. -/
def applyLimitOffset (f : MessageFilter) (l : List MqttMessage) : List MqttMessage :=
  if natTruthy f.limit then
    (if natTruthy f.offset then l.drop (f.offset.getD 0) else l).take (f.limit.getD 0)
  else l

/-- Execution of the SQL query built by `searchMessages`.  When the
filter has a truthy offset but no truthy limit the generated SQL ends in
a bare `OFFSET ?`, which SQLite rejects as a syntax error; the error is
surfaced here as `Except.error`. -/
def runSearch (db : List MqttMessage) (f : MessageFilter) :
    Except String (List MqttMessage) :=
  if natTruthy f.offset && !(natTruthy f.limit) then
    Except.error ("near OFFSET: syntax error")
  else
    Except.ok (applyLimitOffset f (sortByTimestampDesc (db.filter (rowCondition f))))

namespace MessageHistory

/-- `MessageHistory.searchMessages`: runs the generated query; the
enclosing try/catch logs any error and returns an empty array. -/
def searchMessages (db : List MqttMessage) (f : MessageFilter) : List MqttMessage :=
  match runSearch db f with
  | Except.ok rows => rows
  | Except.error _ => []

/-- `MessageHistory.addMessage`: INSERT of the row; `id` is the primary
key, so inserting a duplicate id throws, and the catch leaves the table
unchanged. -/
def addMessage (db : List MqttMessage) (m : MqttMessage) : List MqttMessage :=
  if db.any (fun r => r.id == m.id) then db else db ++ [m]

/-- `MessageHistory.clearAll`: `DELETE FROM messages`. -/
def clearAll (_db : List MqttMessage) : List MqttMessage := []

/-- `MessageHistory.clearOlderThan`: `DELETE FROM messages WHERE
timestamp < ?`.  The first component is the table after the delete; the
second is the TypeScript return value, which is `void` — the number of
removed rows (`result.changes`) is only logged. -/
def clearOlderThan (db : List MqttMessage) (t : Int) : List MqttMessage × Unit :=
  (db.filter (fun m => !(decide (m.timestamp < t))), ())

/-- Result of `MessageHistory.getStatistics`.  `recentCount` is the
`COUNT(*)` over the trailing 60 seconds from which the source derives
`messagesPerSecond` by a floating-point division by 60; the top-10
`messagesByTopic` grouping is omitted (no claim touches it). -/
structure Statistics where
  totalMessages : Nat
  topicCount : Nat
  recentCount : Nat
  dataVolume : Nat
  deriving DecidableEq, Repr

/-- `MessageHistory.getStatistics`, recomputed from the current rows;
`now` stands for `Date.now()`. -/
def getStatistics (db : List MqttMessage) (now : Int) : Statistics :=
  { totalMessages := db.length,
    topicCount := ((db.map (fun m => m.topic)).dedup).length,
    recentCount := (db.filter (fun m => decide (now - 60000 ≤ m.timestamp))).length,
    dataVolume := (db.map (fun m => m.payload.length)).sum }

end MessageHistory

/-- Standard MQTT wildcard matching on segment lists, following the
spec wording (sections 4.1 and 4.3) and the regex produced by
`mqttPatternToRegex` in the renderer for patterns whose `#` occurs only
as the final segment: `+` matches exactly one non-empty segment and
never crosses a `/`; a trailing `#` segment matches zero or more
remaining segments.  This is the refinement-side definition the store
behaviour is compared against. -/
def mqttSegsMatch : List String → List String → Bool
  | [], [] => true
  | [], _ :: _ => false
  | p :: ps, ts =>
    if p == "#" && ps == [] then true
    else
      match ts with
      | [] => false
      | t :: ts2 => (if p == "+" then !(t == "") else p == t) && mqttSegsMatch ps ts2

/-- MQTT-standard pattern match on whole topic strings (refinement-side
definition; see `mqttSegsMatch`). -/
def mqttSpecMatch (pattern topic : String) : Bool :=
  mqttSegsMatch (splitTopic pattern) (splitTopic topic)

/-- One node of the topic tree (shared/types `TopicNode`): one path
segment name, the `/`-joined full path, the message count and last
message at exactly this path, the subscription flag, and the child
nodes.  The `Map<string, TopicNode>` of the source is modelled as a list
in insertion order. -/
inductive TopicNode : Type where
  | mk (name : String) (fullPath : String) (messageCount : Nat)
       (subscribed : Bool) (lastMessage : Option MqttMessage)
       (children : List TopicNode)
  deriving Repr

def TopicNode.name : TopicNode → String
  | .mk n _ _ _ _ _ => n

def TopicNode.fullPath : TopicNode → String
  | .mk _ fp _ _ _ _ => fp

def TopicNode.messageCount : TopicNode → Nat
  | .mk _ _ mc _ _ _ => mc

def TopicNode.subscribed : TopicNode → Bool
  | .mk _ _ _ sub _ _ => sub

def TopicNode.lastMessage : TopicNode → Option MqttMessage
  | .mk _ _ _ _ lm _ => lm

def TopicNode.children : TopicNode → List TopicNode
  | .mk _ _ _ _ _ cs => cs

/-- `currentLevel.get(part)` of the source: the first (and, for trees
built by the operations below, only) node with the given segment name at
one level of the tree. -/
def findChild : List TopicNode → String → Option TopicNode
  | [], _ => none
  | n :: rest, p => if n.name == p then some n else findChild rest p

/-- `currentLevel.set(part, node)` combined with the preceding `get`:
replace the node with the given name in place, or append a freshly built
one (JavaScript `Map.set` keeps the position of an existing key and
appends a new key). -/
def replaceOrAppend (level : List TopicNode) (p : String)
    (f : Option TopicNode → TopicNode) : List TopicNode :=
  match level with
  | [] => [f none]
  | n :: rest =>
    if n.name == p then f (some n) :: rest else n :: replaceOrAppend rest p f

/-- Update the first node with the given name in place, leaving the
level unchanged when no node has that name. -/
def mapFirst (level : List TopicNode) (p : String)
    (f : TopicNode → TopicNode) : List TopicNode :=
  match level with
  | [] => []
  | n :: rest =>
    if n.name == p then f n :: rest else n :: mapFirst rest p f

namespace TopicTree

/-- The loop body of `TopicTree.addMessage`, expressed as recursion on
the remaining topic segments: walk or create the node for each segment,
incrementing `messageCount` and overwriting `lastMessage` only on the
terminal node.  `pre` is the full path accumulated so far. -/
def addAt : List String → String → MqttMessage → List TopicNode → List TopicNode
  | [], _, _, level => level
  | p :: rest, pre, m, level =>
    let fp := if pre = "" then p else pre ++ "/" ++ p
    replaceOrAppend level p (fun o =>
      let n := match o with
        | some n => n
        | none => TopicNode.mk p fp 0 false none []
      match rest with
      | [] =>
        TopicNode.mk n.name n.fullPath (n.messageCount + 1) n.subscribed
          (some m) n.children
      | _ :: _ =>
        TopicNode.mk n.name n.fullPath n.messageCount n.subscribed
          n.lastMessage (addAt rest fp m n.children))

/-- `TopicTree.addMessage`: split the topic on `/` and walk/create the
node chain. -/
def addMessage (tree : List TopicNode) (m : MqttMessage) : List TopicNode :=
  addAt (splitTopic m.topic) "" m tree

/-- The loop body of `TopicTree.findNode`, on segment lists.  An empty
segment list corresponds to the unreachable fall-through `return null`
of the source. -/
def findNodeParts : List TopicNode → List String → Option TopicNode
  | _, [] => none
  | level, p :: rest =>
    match findChild level p with
    | none => none
    | some n =>
      match rest with
      | [] => some n
      | _ :: _ => findNodeParts n.children rest

/-- `TopicTree.findNode`. -/
def findNode (tree : List TopicNode) (topic : String) : Option TopicNode :=
  findNodeParts tree (splitTopic topic)

/-- Core of `TopicTree.markSubscribed`: the source looks the node up
with `findNode` and mutates its `subscribed` field through the returned
reference, so the flag changes at exactly the found node and nothing
happens when the path does not resolve. -/
def setSub : List TopicNode → List String → Bool → List TopicNode
  | level, [], _ => level
  | level, p :: rest, b =>
    mapFirst level p (fun n =>
      match rest with
      | [] =>
        TopicNode.mk n.name n.fullPath n.messageCount b n.lastMessage n.children
      | _ :: _ =>
        TopicNode.mk n.name n.fullPath n.messageCount n.subscribed n.lastMessage
          (setSub n.children rest b))

/-- `TopicTree.markSubscribed`. -/
def markSubscribed (tree : List TopicNode) (topic : String) (b : Bool) :
    List TopicNode :=
  setSub tree (splitTopic topic) b

/-- The `traverseAll` helper of `TopicTree.getMatchingTopics`: full
paths of every node of the forest in depth-first order. -/
def traverseAllL : List TopicNode → List String
  | [] => []
  | TopicNode.mk _ fp _ _ _ cs :: rest =>
    fp :: (traverseAllL cs ++ traverseAllL rest)

/-- The `traverse` helper of `TopicTree.getMatchingTopics`: at depth
`depth` a node matches when the pattern segment equals its name or is
`+` (emitting its full path when the pattern is exhausted, recursing
otherwise), and a `#` pattern segment emits the node and its entire
subtree. -/
def traverseP (pat : List String) : Nat → List TopicNode → List String
  | _, [] => []
  | depth, TopicNode.mk nm fp _ _ _ cs :: rest =>
    ((if pat.get? depth == some nm || pat.get? depth == some ("+") then
        (if depth + 1 == pat.length then [fp] else traverseP pat (depth + 1) cs)
      else []) ++
     (if pat.get? depth == some ("#") then fp :: traverseAllL cs else [])) ++
    traverseP pat depth rest

/-- `TopicTree.getMatchingTopics`. -/
def getMatchingTopics (tree : List TopicNode) (pattern : String) : List String :=
  traverseP (splitTopic pattern) 0 tree

/-- The `traverse` helper of `TopicTree.getTotalMessageCount`, summing
`messageCount` over a forest. -/
def totalCount : List TopicNode → Nat
  | [] => 0
  | TopicNode.mk _ _ mc _ _ cs :: rest => mc + totalCount cs + totalCount rest

/-- `TopicTree.getTotalMessageCount`. -/
def getTotalMessageCount (tree : List TopicNode) : Nat :=
  totalCount tree

/-- `TopicTree.clear`. -/
def clear (_tree : List TopicNode) : List TopicNode := []

end TopicTree

/-- State touched by the message handler that `initializeServices`
(src/src/index.ts) registers on the MQTT service: the persistent store,
the in-memory topic tree, whether the main window is alive, and the
records pushed to the renderer over IPC. -/
structure AppState where
  messageHistory : List MqttMessage
  topicTree : List TopicNode
  windowAlive : Bool
  rendererMessages : List MqttMessage

/-- The `mqttService.on('message', ...)` handler of
`initializeServices`: the `messageHistory?.addMessage(message)` call is
commented out pending a SQLite fix, so only the topic tree is updated
before the record is forwarded to the renderer window. -/
def onMqttMessage (s : AppState) (m : MqttMessage) : AppState :=
  { messageHistory := s.messageHistory,
    topicTree := TopicTree.addMessage s.topicTree m,
    windowAlive := s.windowAlive,
    rendererMessages :=
      if s.windowAlive then s.rendererMessages ++ [m] else s.rendererMessages }

/-- The app state at startup: empty store, empty tree, window open, no
records sent to the renderer yet. -/
def initialApp : AppState :=
  { messageHistory := [], topicTree := [], windowAlive := true,
    rendererMessages := [] }

/-- Message count of the node at the given segment path, `0` when no
node exists there. -/
def countAt (tree : List TopicNode) (q : List String) : Nat :=
  match TopicTree.findNodeParts tree q with
  | none => 0
  | some n => n.messageCount

/-- Last message of the node at the given segment path, `none` when no
node exists there. -/
def lastAt (tree : List TopicNode) (q : List String) : Option MqttMessage :=
  match TopicTree.findNodeParts tree q with
  | none => none
  | some n => n.lastMessage

/-- Subscription flag of the node at the given segment path, `false`
when no node exists there. -/
def subAt (tree : List TopicNode) (q : List String) : Bool :=
  match TopicTree.findNodeParts tree q with
  | none => false
  | some n => n.subscribed

/-- Message count plus subtree message counts of one node. -/
def totalNode (n : TopicNode) : Nat :=
  n.messageCount + TopicTree.totalCount n.children

/-- A record with empty payload, qos 0, not retained, no connection id;
shared shorthand for the concrete scenarios below. -/
def mkMsg (i : String) (t : String) (ts : Int) : MqttMessage :=
  { id := i, topic := t, payload := [], qos := 0, retained := false,
    timestamp := ts, connectionId := none }

/-- Scenario record: topic sensors/kitchen/temp, timestamp 100. -/
def msgKT : MqttMessage := mkMsg ("m1") ("sensors/kitchen/temp") 100

/-- Scenario record: topic sensors/kitchen/humidity, timestamp 200. -/
def msgKH : MqttMessage := mkMsg ("m2") ("sensors/kitchen/humidity") 200

/-- Scenario record: topic sensors/garage/temp, timestamp 300. -/
def msgGT : MqttMessage := mkMsg ("m3") ("sensors/garage/temp") 300

/-- Store holding the three scenario records of the spec, appended in
timestamp order. -/
def db3 : List MqttMessage :=
  MessageHistory.addMessage
    (MessageHistory.addMessage (MessageHistory.addMessage [] msgKT) msgKH) msgGT

/-- Tree obtained by absorbing the three scenario records into an empty
tree. -/
def tree3 : List TopicNode :=
  List.foldl TopicTree.addMessage [] [msgKT, msgKH, msgGT]

/-- Boundary-scenario record with topic a, timestamp 1. -/
def msgA : MqttMessage := mkMsg ("a1") ("a") 1

/-- Boundary-scenario record with topic a/b, timestamp 2. -/
def msgAB : MqttMessage := mkMsg ("a2") ("a/b") 2

/-- Boundary-scenario record with topic a/b/c, timestamp 3. -/
def msgABC : MqttMessage := mkMsg ("a3") ("a/b/c") 3

/-- Boundary-scenario record with topic ab, timestamp 4. -/
def msgX : MqttMessage := mkMsg ("a4") ("ab") 4

/-- Store holding the four boundary-scenario records. -/
def db4 : List MqttMessage := [msgA, msgAB, msgABC, msgX]

/-- Tree obtained by absorbing the four boundary-scenario records. -/
def tree4 : List TopicNode :=
  List.foldl TopicTree.addMessage [] [msgA, msgAB, msgABC, msgX]

/-- Single-record store used for the wildcard counterexample. -/
def db1 : List MqttMessage := [mkMsg ("b1") ("a/b/c") 1]

theorem splitSlash_ne_nil (l : List Char) : splitSlash l ≠ [] := by
  induction l with
  | nil => simp [splitSlash]
  | cons c rest ih =>
    simp only [splitSlash]
    match h : splitSlash rest with
    | [] => exact absurd h ih
    | seg :: segs => by_cases hc : c = '/' <;> simp [hc]

theorem splitTopic_ne_nil (s : String) : splitTopic s ≠ [] := by
  simp [splitTopic, splitSlash_ne_nil]

theorem rowCondition_pageOnly (n o : Option Nat) :
    rowCondition { emptyFilter with limit := n, offset := o } = fun _ => true :=
  funext fun _ => rfl

theorem search_wildcard_eq (db : List MqttMessage) (p : String)
    (hp : (p == "") = false)
    (hw : (containsChar p '+' || containsChar p '#') = true) :
    MessageHistory.searchMessages db { emptyFilter with topic := some p } =
      sortByTimestampDesc
        (db.filter (fun m => likeMatch (likePatternOf p) m.topic.data)) := by
  unfold MessageHistory.searchMessages runSearch
  have hfun : rowCondition { emptyFilter with topic := some p } =
      fun m => likeMatch (likePatternOf p) m.topic.data := by
    funext m
    simp [rowCondition, emptyFilter, hp, hw]
  rw [hfun]
  simp [emptyFilter, natTruthy, applyLimitOffset]

theorem search_exact_eq (db : List MqttMessage) (p : String)
    (hp : (p == "") = false)
    (h1 : containsChar p '+' = false) (h2 : containsChar p '#' = false) :
    MessageHistory.searchMessages db { emptyFilter with topic := some p } =
      sortByTimestampDesc (db.filter (fun m => m.topic == p)) := by
  unfold MessageHistory.searchMessages runSearch
  have hfun : rowCondition { emptyFilter with topic := some p } =
      fun m => m.topic == p := by
    funext m
    simp [rowCondition, emptyFilter, hp, h1, h2]
  rw [hfun]
  simp [emptyFilter, natTruthy, applyLimitOffset]

/-- C1: the spec says the ingestion handler calls `Store.append` and
`Tree.absorb` on the same record and notifies the presentation layer
only after both; in the code the store call is commented out (pending a
SQLite fix), so the handler updates only the topic tree and still
notifies the renderer — the store never receives any record. -/
theorem C1_ingestion_skips_store :
    (∀ (s : AppState) (m : MqttMessage),
        (onMqttMessage s m).messageHistory = s.messageHistory)
    ∧ (onMqttMessage initialApp msgKT).messageHistory = []
    ∧ (onMqttMessage initialApp msgKT).rendererMessages = [msgKT]
    ∧ countAt (onMqttMessage initialApp msgKT).topicTree
        [("sensors"), ("kitchen"), ("temp")] = 1
    ∧ MessageHistory.searchMessages (onMqttMessage initialApp msgKT).messageHistory
        emptyFilter = [] :=
  ⟨fun _ _ => rfl, rfl, by decide, by decide, rfl⟩

/-- C2 counterexample: the store compiles `a/+` to the SQL LIKE pattern
`a/%`, so the search returns the record with topic `a/b/c` even though
under MQTT semantics `+` matches exactly one segment and `a/+` does not
match `a/b/c`. -/
theorem C2_counterexample :
    MessageHistory.searchMessages db1 { emptyFilter with topic := some ("a/+") } = db1
    ∧ mqttSpecMatch ("a/+") ("a/b/c") = false :=
  ⟨by decide, by decide⟩

/-- C2 amended: for every wildcard topic pattern, the search returns
exactly the stored records whose topic matches the pattern under SQL
LIKE semantics with every `+` and `#` replaced by `%` (each wildcard
matches any character sequence, possibly empty and crossing `/`
boundaries), ordered timestamp-descending. -/
theorem C2_amended (db : List MqttMessage) (p : String) (hne : p ≠ "")
    (hw : (containsChar p '+' || containsChar p '#') = true) :
    MessageHistory.searchMessages db { emptyFilter with topic := some p } =
      sortByTimestampDesc
        (db.filter (fun m => likeMatch (likePatternOf p) m.topic.data)) :=
  search_wildcard_eq db p (by simpa using hne) hw

theorem C2_amended_witness :
    MessageHistory.searchMessages db1 { emptyFilter with topic := some ("a/+") } =
      sortByTimestampDesc
        (db1.filter (fun m => likeMatch (likePatternOf ("a/+")) m.topic.data)) :=
  C2_amended db1 ("a/+") (by decide) (by decide)

/-- C3 counterexample: a wildcard-free filter topic is matched by SQL
equality, not by ancestor-prefix semantics; on the three scenario
records, searching for sensors/kitchen returns the empty list, not the
two kitchen records the claim requires. -/
theorem C3_counterexample :
    MessageHistory.searchMessages db3
        { emptyFilter with topic := some ("sensors/kitchen") } = []
    ∧ msgKH ∈ db3 ∧ msgKT ∈ db3 :=
  ⟨by decide, by decide, by decide⟩

/-- C3 amended: a filter topic with no wildcard character matches a
stored record by exact string equality only (no prefix semantics);
searching for sensors/kitchen on the three scenario records therefore
returns the empty list. -/
theorem C3_amended :
    (∀ (db : List MqttMessage) (p : String), p ≠ "" →
        containsChar p '+' = false → containsChar p '#' = false →
        MessageHistory.searchMessages db { emptyFilter with topic := some p } =
          sortByTimestampDesc (db.filter (fun m => m.topic == p)))
    ∧ MessageHistory.searchMessages db3
        { emptyFilter with topic := some ("sensors/kitchen") } = [] :=
  ⟨fun db p hne h1 h2 => search_exact_eq db p (by simpa using hne) h1 h2, by decide⟩

theorem C3_amended_witness :
    MessageHistory.searchMessages db3
        { emptyFilter with topic := some ("sensors/kitchen") } =
      sortByTimestampDesc (db3.filter (fun m => m.topic == ("sensors/kitchen"))) :=
  C3_amended.1 db3 ("sensors/kitchen") (by decide) (by decide) (by decide)

/-- C5 counterexample: `clearOlderThan` returns `void` (modelled as
`Unit`): two calls that remove different numbers of records (0 and 1)
return the very same value, so the return value cannot be the count of
records removed as the claim states. -/
theorem C5_counterexample :
    (∀ (db : List MqttMessage) (t : Int),
        (MessageHistory.clearOlderThan db t).2 = ())
    ∧ (MessageHistory.clearOlderThan [] 0).2 =
        (MessageHistory.clearOlderThan [msgKT] 200).2
    ∧ ([] : List MqttMessage).length -
        (MessageHistory.clearOlderThan [] 0).1.length = 0
    ∧ [msgKT].length -
        (MessageHistory.clearOlderThan [msgKT] 200).1.length = 1 :=
  ⟨fun _ _ => rfl, rfl, rfl, by decide⟩

/-- C5 amended: `clearOlderThan(t)` removes exactly the records whose
timestamp is strictly older than `t`, but only logs the removed count —
its return value is void; on the scenario store, `clearOlderThan(250)`
leaves one record and `statistics().totalMessages` then equals 1. -/
theorem C5_amended :
    (∀ (db : List MqttMessage) (t : Int) (m : MqttMessage),
        m ∈ (MessageHistory.clearOlderThan db t).1 ↔ m ∈ db ∧ t ≤ m.timestamp)
    ∧ (∀ (db : List MqttMessage) (now : Int),
        (MessageHistory.getStatistics db now).totalMessages = db.length)
    ∧ (MessageHistory.getStatistics
        (MessageHistory.clearOlderThan db3 250).1 0).totalMessages = 1 := by
  refine ⟨?_, fun db now => rfl, by decide⟩
  intro db t m
  simp [MessageHistory.clearOlderThan, List.mem_filter, not_lt]

/-- C6 counterexample: `filter.limit` is tested for JavaScript
truthiness, so a limit of 0 adds no LIMIT clause and the search returns
all four records instead of the empty sequence the claim requires. -/
theorem C6_counterexample :
    MessageHistory.searchMessages db4 { emptyFilter with limit := some 0 } ≠ []
    ∧ (MessageHistory.searchMessages db4 { emptyFilter with limit := some 0 }).length = 4 :=
  ⟨by decide, by decide⟩

/-- C6 amended: a limit of 0 is falsy and behaves as no limit at all
(search returns every matching record); a nonzero limit `n` returns at
most `n` records, with the offset skipping that many records from the
head of the timestamp-descending ordering before the limit applies; an
offset without a truthy limit makes the generated SQL invalid and the
search returns the empty list. -/
theorem C6_amended :
    (∀ db : List MqttMessage,
        MessageHistory.searchMessages db { emptyFilter with limit := some 0 } =
          MessageHistory.searchMessages db emptyFilter)
    ∧ (∀ (db : List MqttMessage) (n o : Nat), n ≠ 0 →
        MessageHistory.searchMessages db
            { emptyFilter with limit := some n, offset := some o } =
          ((sortByTimestampDesc db).drop o).take n
        ∧ (MessageHistory.searchMessages db
            { emptyFilter with limit := some n, offset := some o }).length ≤ n)
    ∧ (∀ (db : List MqttMessage) (k : Nat), k ≠ 0 →
        MessageHistory.searchMessages db { emptyFilter with offset := some k } = []) := by
  refine ⟨fun db => rfl, ?_, ?_⟩
  · intro db n o hn
    have key : MessageHistory.searchMessages db
        { emptyFilter with limit := some n, offset := some o } =
        ((sortByTimestampDesc db).drop o).take n := by
      unfold MessageHistory.searchMessages runSearch
      rw [rowCondition_pageOnly, List.filter_true]
      by_cases ho : o = 0
      · subst ho
        simp [applyLimitOffset, natTruthy, hn, emptyFilter]
      · simp [applyLimitOffset, natTruthy, hn, ho, emptyFilter]
    refine ⟨key, ?_⟩
    rw [key]
    exact List.length_take_le n ((sortByTimestampDesc db).drop o)
  · intro db k hk
    unfold MessageHistory.searchMessages runSearch
    simp [natTruthy, emptyFilter, hk]

theorem C6_amended_witness :
    MessageHistory.searchMessages db4
        { emptyFilter with limit := some 2, offset := some 1 } =
      ((sortByTimestampDesc db4).drop 1).take 2 :=
  (C6_amended.2.1 db4 2 1 (by decide)).1

/-- C9 counterexample: a filter with an offset but no limit produces an
invalid SQL query; the catch in `searchMessages` swallows the error and
returns the empty list, which is exactly what a search over an empty
store returns — the error is indistinguishable from an empty match. -/
theorem C9_counterexample :
    runSearch [msgKT] { emptyFilter with offset := some 1 } =
      Except.error ("near OFFSET: syntax error")
    ∧ MessageHistory.searchMessages [msgKT] { emptyFilter with offset := some 1 } = []
    ∧ MessageHistory.searchMessages [] emptyFilter = [] :=
  ⟨rfl, rfl, rfl⟩

/-- C9 amended: when query execution fails, `searchMessages` logs the
error and returns the empty list instead of reporting the failure, so an
error result is indistinguishable from a legitimately empty match; in
particular a truthy offset without a truthy limit always fails. -/
theorem C9_amended :
    (∀ (db : List MqttMessage) (f : MessageFilter) (e : String),
        runSearch db f = Except.error e →
        MessageHistory.searchMessages db f = [])
    ∧ (∀ (db : List MqttMessage) (k : Nat), k ≠ 0 →
        runSearch db { emptyFilter with offset := some k } =
          Except.error ("near OFFSET: syntax error")) := by
  constructor
  · intro db f e h
    unfold MessageHistory.searchMessages
    rw [h]
  · intro db k hk
    unfold runSearch
    simp [natTruthy, emptyFilter, hk]

theorem C9_amended_witness :
    MessageHistory.searchMessages [msgKT] { emptyFilter with offset := some 1 } = [] :=
  C9_amended.1 [msgKT] { emptyFilter with offset := some 1 }
    ("near OFFSET: syntax error") (C9_amended.2 [msgKT] 1 (by decide))

@[simp] theorem TopicNode.name_mk (n fp : String) (mc : Nat) (sb : Bool)
    (lm : Option MqttMessage) (cs : List TopicNode) :
    (TopicNode.mk n fp mc sb lm cs).name = n := rfl

@[simp] theorem TopicNode.fullPath_mk (n fp : String) (mc : Nat) (sb : Bool)
    (lm : Option MqttMessage) (cs : List TopicNode) :
    (TopicNode.mk n fp mc sb lm cs).fullPath = fp := rfl

@[simp] theorem TopicNode.messageCount_mk (n fp : String) (mc : Nat) (sb : Bool)
    (lm : Option MqttMessage) (cs : List TopicNode) :
    (TopicNode.mk n fp mc sb lm cs).messageCount = mc := rfl

@[simp] theorem TopicNode.subscribed_mk (n fp : String) (mc : Nat) (sb : Bool)
    (lm : Option MqttMessage) (cs : List TopicNode) :
    (TopicNode.mk n fp mc sb lm cs).subscribed = sb := rfl

@[simp] theorem TopicNode.lastMessage_mk (n fp : String) (mc : Nat) (sb : Bool)
    (lm : Option MqttMessage) (cs : List TopicNode) :
    (TopicNode.mk n fp mc sb lm cs).lastMessage = lm := rfl

@[simp] theorem TopicNode.children_mk (n fp : String) (mc : Nat) (sb : Bool)
    (lm : Option MqttMessage) (cs : List TopicNode) :
    (TopicNode.mk n fp mc sb lm cs).children = cs := rfl

theorem TopicNode.eta (n : TopicNode) :
    TopicNode.mk n.name n.fullPath n.messageCount n.subscribed n.lastMessage
      n.children = n := by
  cases n
  rfl

theorem findChild_replaceOrAppend_same (level : List TopicNode) (p : String)
    (f : Option TopicNode → TopicNode)
    (hf0 : (f none).name = p)
    (hf1 : ∀ n, n.name = p → (f (some n)).name = p) :
    findChild (replaceOrAppend level p f) p = some (f (findChild level p)) := by
  induction level with
  | nil => simp [replaceOrAppend, findChild, hf0]
  | cons n rest ih =>
    cases hb : n.name == p with
    | true =>
      have hbp : n.name = p := by simpa using hb
      simp [replaceOrAppend, findChild, hb, hf1 n hbp]
    | false =>
      simp [replaceOrAppend, findChild, hb, ih]


theorem countAt_nil (q : List String) : countAt [] q = 0 := by
  cases q <;> simp [countAt, TopicTree.findNodeParts, findChild]

theorem lastAt_nil (q : List String) : lastAt [] q = none := by
  cases q <;> simp [lastAt, TopicTree.findNodeParts, findChild]

theorem subAt_nil (q : List String) : subAt [] q = false := by
  cases q <;> simp [subAt, TopicTree.findNodeParts, findChild]

theorem countAt_cons_none {level : List TopicNode} {p : String} (q : List String)
    (h : findChild level p = none) : countAt level (p :: q) = 0 := by
  simp [countAt, TopicTree.findNodeParts, h]

theorem lastAt_cons_none {level : List TopicNode} {p : String} (q : List String)
    (h : findChild level p = none) : lastAt level (p :: q) = none := by
  simp [lastAt, TopicTree.findNodeParts, h]

theorem subAt_cons_none {level : List TopicNode} {p : String} (q : List String)
    (h : findChild level p = none) : subAt level (p :: q) = false := by
  simp [subAt, TopicTree.findNodeParts, h]

theorem countAt_single_some {level : List TopicNode} {p : String} {n : TopicNode}
    (h : findChild level p = some n) : countAt level [p] = n.messageCount := by
  simp [countAt, TopicTree.findNodeParts, h]

theorem lastAt_single_some {level : List TopicNode} {p : String} {n : TopicNode}
    (h : findChild level p = some n) : lastAt level [p] = n.lastMessage := by
  simp [lastAt, TopicTree.findNodeParts, h]

theorem subAt_single_some {level : List TopicNode} {p : String} {n : TopicNode}
    (h : findChild level p = some n) : subAt level [p] = n.subscribed := by
  simp [subAt, TopicTree.findNodeParts, h]

theorem countAt_cons2_some {level : List TopicNode} {p : String} {n : TopicNode}
    (r : String) (rs : List String) (h : findChild level p = some n) :
    countAt level (p :: r :: rs) = countAt n.children (r :: rs) := by
  simp [countAt, TopicTree.findNodeParts, h]

theorem lastAt_cons2_some {level : List TopicNode} {p : String} {n : TopicNode}
    (r : String) (rs : List String) (h : findChild level p = some n) :
    lastAt level (p :: r :: rs) = lastAt n.children (r :: rs) := by
  simp [lastAt, TopicTree.findNodeParts, h]

theorem subAt_cons2_some {level : List TopicNode} {p : String} {n : TopicNode}
    (r : String) (rs : List String) (h : findChild level p = some n) :
    subAt level (p :: r :: rs) = subAt n.children (r :: rs) := by
  simp [subAt, TopicTree.findNodeParts, h]

theorem addAt_terminal (p pre : String) (m : MqttMessage) (level : List TopicNode) :
    TopicTree.addAt [p] pre m level =
      replaceOrAppend level p (fun o =>
        match o with
        | some n =>
          TopicNode.mk n.name n.fullPath (n.messageCount + 1) n.subscribed
            (some m) n.children
        | none =>
          TopicNode.mk p (if pre = "" then p else pre ++ "/" ++ p) 1 false
            (some m) []) := by
  change replaceOrAppend level p _ = _
  congr 1
  funext o
  cases o <;> rfl

theorem addAt_cons2 (p r : String) (rs : List String) (pre : String)
    (m : MqttMessage) (level : List TopicNode) :
    TopicTree.addAt (p :: r :: rs) pre m level =
      replaceOrAppend level p (fun o =>
        match o with
        | some n =>
          TopicNode.mk n.name n.fullPath n.messageCount n.subscribed n.lastMessage
            (TopicTree.addAt (r :: rs) (if pre = "" then p else pre ++ "/" ++ p) m
              n.children)
        | none =>
          TopicNode.mk p (if pre = "" then p else pre ++ "/" ++ p) 0 false none
            (TopicTree.addAt (r :: rs) (if pre = "" then p else pre ++ "/" ++ p) m
              [])) := by
  change replaceOrAppend level p _ = _
  congr 1
  funext o
  cases o <;> rfl

theorem RA_terminal_fields (level : List TopicNode) (p fp : String)
    (m : MqttMessage) (f : Option TopicNode → TopicNode)
    (hfn : f none = TopicNode.mk p fp 1 false (some m) [])
    (hfs : ∀ n, f (some n) =
      TopicNode.mk n.name n.fullPath (n.messageCount + 1) n.subscribed
        (some m) n.children) :
    countAt (replaceOrAppend level p f) [p] = countAt level [p] + 1
    ∧ lastAt (replaceOrAppend level p f) [p] = some m
    ∧ subAt (replaceOrAppend level p f) [p] = subAt level [p] := by
  have hf0 : (f none).name = p := by rw [hfn]; rfl
  have hf1 : ∀ n, n.name = p → (f (some n)).name = p := by
    intro n h
    rw [hfs]
    simpa using h
  have hsame := findChild_replaceOrAppend_same level p f hf0 hf1
  cases ho : findChild level p with
  | none =>
    rw [ho, hfn] at hsame
    rw [countAt_single_some hsame, lastAt_single_some hsame, subAt_single_some hsame,
      countAt_cons_none ([] : List String) ho, subAt_cons_none ([] : List String) ho]
    simp
  | some n =>
    rw [ho, hfs n] at hsame
    rw [countAt_single_some hsame, lastAt_single_some hsame, subAt_single_some hsame,
      countAt_single_some ho, subAt_single_some ho]
    simp

theorem RA_cont_fields (level : List TopicNode) (p fp : String) (m : MqttMessage)
    (q : List String) (hq : q ≠ [])
    (tailNew : List TopicNode → List TopicNode)
    (f : Option TopicNode → TopicNode)
    (hfn : f none = TopicNode.mk p fp 0 false none (tailNew []))
    (hfs : ∀ n, f (some n) =
      TopicNode.mk n.name n.fullPath n.messageCount n.subscribed n.lastMessage
        (tailNew n.children))
    (htail : ∀ cs : List TopicNode,
      countAt (tailNew cs) q = countAt cs q + 1
      ∧ lastAt (tailNew cs) q = some m
      ∧ subAt (tailNew cs) q = subAt cs q) :
    countAt (replaceOrAppend level p f) (p :: q) = countAt level (p :: q) + 1
    ∧ lastAt (replaceOrAppend level p f) (p :: q) = some m
    ∧ subAt (replaceOrAppend level p f) (p :: q) = subAt level (p :: q) := by
  obtain ⟨r, rs, rfl⟩ : ∃ r rs, q = r :: rs := by
    cases q with
    | nil => exact absurd rfl hq
    | cons r rs => exact ⟨r, rs, rfl⟩
  have hf0 : (f none).name = p := by rw [hfn]; rfl
  have hf1 : ∀ n, n.name = p → (f (some n)).name = p := by
    intro n h
    rw [hfs]
    simpa using h
  have hsame := findChild_replaceOrAppend_same level p f hf0 hf1
  cases ho : findChild level p with
  | none =>
    rw [ho, hfn] at hsame
    obtain ⟨h1, h2, h3⟩ := htail []
    refine ⟨?_, ?_, ?_⟩
    · rw [countAt_cons2_some r rs hsame]
      simp only [TopicNode.children_mk]
      rw [h1, countAt_cons_none (r :: rs) ho, countAt_nil]
    · rw [lastAt_cons2_some r rs hsame]
      simp only [TopicNode.children_mk]
      exact h2
    · rw [subAt_cons2_some r rs hsame]
      simp only [TopicNode.children_mk]
      rw [h3, subAt_cons_none (r :: rs) ho, subAt_nil]
  | some n =>
    rw [ho, hfs n] at hsame
    obtain ⟨h1, h2, h3⟩ := htail n.children
    refine ⟨?_, ?_, ?_⟩
    · rw [countAt_cons2_some r rs hsame]
      simp only [TopicNode.children_mk]
      rw [h1, countAt_cons2_some r rs ho]
    · rw [lastAt_cons2_some r rs hsame]
      simp only [TopicNode.children_mk]
      exact h2
    · rw [subAt_cons2_some r rs hsame]
      simp only [TopicNode.children_mk]
      rw [h3, subAt_cons2_some r rs ho]

theorem findNodeParts_addAt_self :
    ∀ (parts : List String) (pre : String) (m : MqttMessage) (level : List TopicNode),
      parts ≠ [] →
      countAt (TopicTree.addAt parts pre m level) parts = countAt level parts + 1
      ∧ lastAt (TopicTree.addAt parts pre m level) parts = some m
      ∧ subAt (TopicTree.addAt parts pre m level) parts = subAt level parts := by
  intro parts
  induction parts with
  | nil => intro pre m level h; exact absurd rfl h
  | cons p rest ih =>
    intro pre m level _
    cases rest with
    | nil =>
      rw [addAt_terminal]
      exact RA_terminal_fields level p (if pre = "" then p else pre ++ "/" ++ p) m _
        rfl (fun n => rfl)
    | cons r rs =>
      rw [addAt_cons2]
      exact RA_cont_fields level p (if pre = "" then p else pre ++ "/" ++ p) m
        (r :: rs) (by simp)
        (TopicTree.addAt (r :: rs) (if pre = "" then p else pre ++ "/" ++ p) m) _
        rfl (fun n => rfl)
        (fun cs => ih (if pre = "" then p else pre ++ "/" ++ p) m cs (by simp))

theorem RA_cont_shallow (level : List TopicNode) (p fp : String)
    (tailNew : List TopicNode → List TopicNode)
    (f : Option TopicNode → TopicNode)
    (hfn : f none = TopicNode.mk p fp 0 false none (tailNew []))
    (hfs : ∀ n, f (some n) =
      TopicNode.mk n.name n.fullPath n.messageCount n.subscribed n.lastMessage
        (tailNew n.children)) :
    countAt (replaceOrAppend level p f) [p] = countAt level [p]
    ∧ lastAt (replaceOrAppend level p f) [p] = lastAt level [p]
    ∧ subAt (replaceOrAppend level p f) [p] = subAt level [p] := by
  have hf0 : (f none).name = p := by rw [hfn]; rfl
  have hf1 : ∀ n, n.name = p → (f (some n)).name = p := by
    intro n h
    rw [hfs]
    simpa using h
  have hsame := findChild_replaceOrAppend_same level p f hf0 hf1
  cases ho : findChild level p with
  | none =>
    rw [ho, hfn] at hsame
    rw [countAt_single_some hsame, lastAt_single_some hsame, subAt_single_some hsame,
      countAt_cons_none ([] : List String) ho, lastAt_cons_none ([] : List String) ho,
      subAt_cons_none ([] : List String) ho]
    simp
  | some n =>
    rw [ho, hfs n] at hsame
    rw [countAt_single_some hsame, lastAt_single_some hsame, subAt_single_some hsame,
      countAt_single_some ho, lastAt_single_some ho, subAt_single_some ho]
    simp

theorem RA_cont_deep (level : List TopicNode) (p fp : String)
    (q : List String) (hq : q ≠ [])
    (tailNew : List TopicNode → List TopicNode)
    (f : Option TopicNode → TopicNode)
    (hfn : f none = TopicNode.mk p fp 0 false none (tailNew []))
    (hfs : ∀ n, f (some n) =
      TopicNode.mk n.name n.fullPath n.messageCount n.subscribed n.lastMessage
        (tailNew n.children))
    (htail : ∀ cs : List TopicNode,
      countAt (tailNew cs) q = countAt cs q
      ∧ lastAt (tailNew cs) q = lastAt cs q
      ∧ subAt (tailNew cs) q = subAt cs q) :
    countAt (replaceOrAppend level p f) (p :: q) = countAt level (p :: q)
    ∧ lastAt (replaceOrAppend level p f) (p :: q) = lastAt level (p :: q)
    ∧ subAt (replaceOrAppend level p f) (p :: q) = subAt level (p :: q) := by
  obtain ⟨r, rs, rfl⟩ : ∃ r rs, q = r :: rs := by
    cases q with
    | nil => exact absurd rfl hq
    | cons r rs => exact ⟨r, rs, rfl⟩
  have hf0 : (f none).name = p := by rw [hfn]; rfl
  have hf1 : ∀ n, n.name = p → (f (some n)).name = p := by
    intro n h
    rw [hfs]
    simpa using h
  have hsame := findChild_replaceOrAppend_same level p f hf0 hf1
  cases ho : findChild level p with
  | none =>
    rw [ho, hfn] at hsame
    obtain ⟨h1, h2, h3⟩ := htail []
    refine ⟨?_, ?_, ?_⟩
    · rw [countAt_cons2_some r rs hsame]
      simp only [TopicNode.children_mk]
      rw [h1, countAt_cons_none (r :: rs) ho, countAt_nil]
    · rw [lastAt_cons2_some r rs hsame]
      simp only [TopicNode.children_mk]
      rw [h2, lastAt_cons_none (r :: rs) ho, lastAt_nil]
    · rw [subAt_cons2_some r rs hsame]
      simp only [TopicNode.children_mk]
      rw [h3, subAt_cons_none (r :: rs) ho, subAt_nil]
  | some n =>
    rw [ho, hfs n] at hsame
    obtain ⟨h1, h2, h3⟩ := htail n.children
    refine ⟨?_, ?_, ?_⟩
    · rw [countAt_cons2_some r rs hsame]
      simp only [TopicNode.children_mk]
      rw [h1, countAt_cons2_some r rs ho]
    · rw [lastAt_cons2_some r rs hsame]
      simp only [TopicNode.children_mk]
      rw [h2, lastAt_cons2_some r rs ho]
    · rw [subAt_cons2_some r rs hsame]
      simp only [TopicNode.children_mk]
      rw [h3, subAt_cons2_some r rs ho]

theorem findNodeParts_addAt_ancestor :
    ∀ (q r : List String) (pre : String) (m : MqttMessage) (level : List TopicNode),
      q ≠ [] → r ≠ [] →
      countAt (TopicTree.addAt (q ++ r) pre m level) q = countAt level q
      ∧ lastAt (TopicTree.addAt (q ++ r) pre m level) q = lastAt level q
      ∧ subAt (TopicTree.addAt (q ++ r) pre m level) q = subAt level q := by
  intro q
  induction q with
  | nil => intro r pre m level hq hr; exact absurd rfl hq
  | cons a q2 ih =>
    intro r pre m level _ hr
    cases q2 with
    | nil =>
      cases r with
      | nil => exact absurd rfl hr
      | cons r1 rr =>
        simp only [List.cons_append, List.nil_append]
        rw [addAt_cons2]
        exact RA_cont_shallow level a (if pre = "" then a else pre ++ "/" ++ a)
          (TopicTree.addAt (r1 :: rr) (if pre = "" then a else pre ++ "/" ++ a) m) _
          rfl (fun n => rfl)
    | cons b q3 =>
      simp only [List.cons_append]
      rw [addAt_cons2]
      exact RA_cont_deep level a (if pre = "" then a else pre ++ "/" ++ a)
        (b :: q3) (by simp)
        (TopicTree.addAt (b :: (q3 ++ r)) (if pre = "" then a else pre ++ "/" ++ a) m) _
        rfl (fun n => rfl)
        (fun cs => ih r (if pre = "" then a else pre ++ "/" ++ a) m cs (by simp) hr)

theorem totalCount_cons (n : TopicNode) (rest : List TopicNode) :
    TopicTree.totalCount (n :: rest) = totalNode n + TopicTree.totalCount rest := by
  cases n
  simp [TopicTree.totalCount, totalNode]

theorem totalCount_replaceOrAppend (level : List TopicNode) (p : String)
    (f : Option TopicNode → TopicNode) (k : Nat)
    (hf0 : totalNode (f none) = k)
    (hf1 : ∀ n, totalNode (f (some n)) = totalNode n + k) :
    TopicTree.totalCount (replaceOrAppend level p f) =
      TopicTree.totalCount level + k := by
  induction level with
  | nil =>
    simp [replaceOrAppend, totalCount_cons, hf0, TopicTree.totalCount]
  | cons n rest ih =>
    cases hb : n.name == p with
    | true =>
      simp only [replaceOrAppend, hb, if_true]
      rw [totalCount_cons, totalCount_cons, hf1 n]
      omega
    | false =>
      simp only [replaceOrAppend, hb, Bool.false_eq_true, if_false]
      rw [totalCount_cons, totalCount_cons, ih]
      omega

theorem totalCount_addAt :
    ∀ (parts : List String) (pre : String) (m : MqttMessage) (level : List TopicNode),
      parts ≠ [] →
      TopicTree.totalCount (TopicTree.addAt parts pre m level) =
        TopicTree.totalCount level + 1 := by
  intro parts
  induction parts with
  | nil => intro pre m level h; exact absurd rfl h
  | cons p rest ih =>
    intro pre m level _
    cases rest with
    | nil =>
      rw [addAt_terminal]
      apply totalCount_replaceOrAppend level p _ 1
      · simp [totalNode, TopicTree.totalCount]
      · intro n
        simp [totalNode]
        omega
    | cons r rs =>
      rw [addAt_cons2]
      apply totalCount_replaceOrAppend level p _ 1
      · have := ih (if pre = "" then p else pre ++ "/" ++ p) m [] (by simp)
        simp only [totalNode, TopicNode.messageCount_mk, TopicNode.children_mk]
        rw [this]
        simp [TopicTree.totalCount]
      · intro n
        have := ih (if pre = "" then p else pre ++ "/" ++ p) m n.children (by simp)
        simp only [totalNode, TopicNode.messageCount_mk, TopicNode.children_mk]
        rw [this]
        omega

theorem totalCount_addMessage (t : List TopicNode) (m : MqttMessage) :
    TopicTree.totalCount (TopicTree.addMessage t m) = TopicTree.totalCount t + 1 :=
  totalCount_addAt (splitTopic m.topic) "" m t (splitTopic_ne_nil m.topic)

theorem totalCount_foldl :
    ∀ (ms : List MqttMessage) (t : List TopicNode),
      TopicTree.totalCount (List.foldl TopicTree.addMessage t ms) =
        TopicTree.totalCount t + ms.length := by
  intro ms
  induction ms with
  | nil => intro t; simp
  | cons m ms ih =>
    intro t
    simp only [List.foldl_cons, ih, totalCount_addMessage, List.length_cons]
    omega

theorem totalCount_mapFirst (level : List TopicNode) (p : String)
    (f : TopicNode → TopicNode)
    (hf : ∀ n, totalNode (f n) = totalNode n) :
    TopicTree.totalCount (mapFirst level p f) = TopicTree.totalCount level := by
  induction level with
  | nil => rfl
  | cons n rest ih =>
    cases hb : n.name == p with
    | true =>
      simp only [mapFirst, hb, if_true]
      rw [totalCount_cons, totalCount_cons, hf n]
    | false =>
      simp only [mapFirst, hb, Bool.false_eq_true, if_false]
      rw [totalCount_cons, totalCount_cons, ih]

theorem totalCount_setSub :
    ∀ (parts : List String) (level : List TopicNode) (b : Bool),
      TopicTree.totalCount (TopicTree.setSub level parts b) =
        TopicTree.totalCount level := by
  intro parts
  induction parts with
  | nil => intro level b; rfl
  | cons p rest ih =>
    intro level b
    cases rest with
    | nil =>
      rw [show TopicTree.setSub level [p] b =
        mapFirst level p (fun n =>
          TopicNode.mk n.name n.fullPath n.messageCount b n.lastMessage n.children)
        from rfl]
      apply totalCount_mapFirst
      intro n
      simp [totalNode]
    | cons r rs =>
      rw [show TopicTree.setSub level (p :: r :: rs) b =
        mapFirst level p (fun n =>
          TopicNode.mk n.name n.fullPath n.messageCount n.subscribed n.lastMessage
            (TopicTree.setSub n.children (r :: rs) b))
        from rfl]
      apply totalCount_mapFirst
      intro n
      simp only [totalNode, TopicNode.messageCount_mk, TopicNode.children_mk]
      rw [ih n.children b]

theorem mapFirst_of_none (level : List TopicNode) (p : String)
    (f : TopicNode → TopicNode) (h : findChild level p = none) :
    mapFirst level p f = level := by
  induction level with
  | nil => rfl
  | cons n rest ih =>
    cases hb : n.name == p with
    | true => simp [findChild, hb] at h
    | false =>
      simp only [findChild, hb] at h
      simp only [mapFirst, hb]
      rw [ih h]
      simp

theorem mapFirst_fix (level : List TopicNode) (p : String)
    (f : TopicNode → TopicNode) (n : TopicNode)
    (h : findChild level p = some n) (hfix : f n = n) :
    mapFirst level p f = level := by
  induction level with
  | nil => simp [findChild] at h
  | cons n0 rest ih =>
    cases hb : n0.name == p with
    | true =>
      simp only [findChild, hb, if_true, Option.some.injEq] at h
      simp only [mapFirst, hb, if_true]
      rw [h, hfix]
    | false =>
      simp only [findChild, hb] at h
      simp only [mapFirst, hb]
      rw [ih h]
      simp

theorem findChild_mapFirst_same (level : List TopicNode) (p : String)
    (f : TopicNode → TopicNode)
    (hf : ∀ n, (f n).name = n.name) :
    findChild (mapFirst level p f) p = (findChild level p).map f := by
  induction level with
  | nil => simp [mapFirst, findChild]
  | cons n rest ih =>
    cases hb : n.name == p with
    | true => simp [mapFirst, findChild, hb, hf]
    | false => simp [mapFirst, findChild, hb, hf, ih]

theorem setSub_not_found :
    ∀ (parts : List String) (level : List TopicNode) (b : Bool),
      TopicTree.findNodeParts level parts = none →
      TopicTree.setSub level parts b = level := by
  intro parts
  induction parts with
  | nil => intro level b _; rfl
  | cons p rest ih =>
    intro level b h
    cases ho : findChild level p with
    | none =>
      cases rest with
      | nil =>
        rw [show TopicTree.setSub level [p] b =
          mapFirst level p (fun n =>
            TopicNode.mk n.name n.fullPath n.messageCount b n.lastMessage n.children)
          from rfl]
        exact mapFirst_of_none level p _ ho
      | cons r rs =>
        rw [show TopicTree.setSub level (p :: r :: rs) b =
          mapFirst level p (fun n =>
            TopicNode.mk n.name n.fullPath n.messageCount n.subscribed n.lastMessage
              (TopicTree.setSub n.children (r :: rs) b))
          from rfl]
        exact mapFirst_of_none level p _ ho
    | some n =>
      cases rest with
      | nil => simp [TopicTree.findNodeParts, ho] at h
      | cons r rs =>
        simp only [TopicTree.findNodeParts, ho] at h
        rw [show TopicTree.setSub level (p :: r :: rs) b =
          mapFirst level p (fun n1 =>
            TopicNode.mk n1.name n1.fullPath n1.messageCount n1.subscribed n1.lastMessage
              (TopicTree.setSub n1.children (r :: rs) b))
          from rfl]
        have hfix : TopicNode.mk n.name n.fullPath n.messageCount n.subscribed
            n.lastMessage (TopicTree.setSub n.children (r :: rs) b) = n := by
          rw [ih n.children b h]
          exact TopicNode.eta n
        exact mapFirst_fix level p _ n ho hfix

theorem setSub_found :
    ∀ (parts : List String) (level : List TopicNode) (b : Bool) (n : TopicNode),
      TopicTree.findNodeParts level parts = some n →
      TopicTree.findNodeParts (TopicTree.setSub level parts b) parts =
        some (TopicNode.mk n.name n.fullPath n.messageCount b n.lastMessage
          n.children) := by
  intro parts
  induction parts with
  | nil => intro level b n h; simp [TopicTree.findNodeParts] at h
  | cons p rest ih =>
    intro level b n h
    cases ho : findChild level p with
    | none => simp [TopicTree.findNodeParts, ho] at h
    | some n0 =>
      cases rest with
      | nil =>
        simp only [TopicTree.findNodeParts, ho, Option.some.injEq] at h
        rw [show TopicTree.setSub level [p] b =
          mapFirst level p (fun n1 =>
            TopicNode.mk n1.name n1.fullPath n1.messageCount b n1.lastMessage
              n1.children)
          from rfl]
        have hmap := findChild_mapFirst_same level p
          (fun n1 =>
            TopicNode.mk n1.name n1.fullPath n1.messageCount b n1.lastMessage
              n1.children)
          (fun n1 => rfl)
        rw [ho] at hmap
        simp only [TopicTree.findNodeParts, hmap]
        simp [h]
      | cons r rs =>
        simp only [TopicTree.findNodeParts, ho] at h
        rw [show TopicTree.setSub level (p :: r :: rs) b =
          mapFirst level p (fun n1 =>
            TopicNode.mk n1.name n1.fullPath n1.messageCount n1.subscribed
              n1.lastMessage (TopicTree.setSub n1.children (r :: rs) b))
          from rfl]
        have hmap := findChild_mapFirst_same level p
          (fun n1 =>
            TopicNode.mk n1.name n1.fullPath n1.messageCount n1.subscribed
              n1.lastMessage (TopicTree.setSub n1.children (r :: rs) b))
          (fun n1 => rfl)
        rw [ho] at hmap
        simp only [TopicTree.findNodeParts, hmap, Option.map_some,
          TopicNode.children_mk]
        exact ih n0.children b n h

/-- C4 counterexample: the pattern a/# does not match the parent topic
itself: the record with topic a is stored but not returned by
search({topic: a/#}) (the store compiles the pattern to LIKE a/%), and
the tree path a is absent from getMatchingTopics(a/#). -/
theorem C4_counterexample :
    msgA ∈ db4
    ∧ msgA ∉ MessageHistory.searchMessages db4
        { emptyFilter with topic := some ("a/#") }
    ∧ ("a" : String) ∉ TopicTree.getMatchingTopics tree4 ("a/#") := by
  refine ⟨by decide, by decide, ?_⟩
  have h : TopicTree.getMatchingTopics tree4 ("a/#") = [("a/b"), ("a/b/c")] := by
    simp [tree4, msgA, msgAB, msgABC, msgX, mkMsg, TopicTree.addMessage,
      TopicTree.addAt, TopicTree.getMatchingTopics, TopicTree.traverseP,
      TopicTree.traverseAllL, splitTopic, splitSlash, replaceOrAppend,
      TopicNode.name, TopicNode.fullPath, TopicNode.messageCount,
      TopicNode.subscribed, TopicNode.lastMessage, TopicNode.children]
  rw [h]
  decide

/-- C4 amended: a pattern ending in /# compiles to a LIKE pattern whose
final segment is %, which matches only topics strictly below the parent:
the parent topic itself is not matched (neither by store search nor by
the tree matchingTopics traversal), and a mere string-prefix that is not
a segment boundary (such as ab for a/#) is not matched either. -/
theorem C4_amended :
    (∀ db : List MqttMessage,
        MessageHistory.searchMessages db { emptyFilter with topic := some ("a/#") } =
          sortByTimestampDesc
            (db.filter (fun m => likeMatch (likePatternOf ("a/#")) m.topic.data)))
    ∧ likeMatch (likePatternOf ("a/#")) ("a").data = false
    ∧ likeMatch (likePatternOf ("a/#")) ("a/b").data = true
    ∧ likeMatch (likePatternOf ("a/#")) ("a/b/c").data = true
    ∧ likeMatch (likePatternOf ("a/#")) ("ab").data = false
    ∧ TopicTree.getMatchingTopics tree4 ("a/#") = [("a/b"), ("a/b/c")] := by
  refine ⟨fun db => search_wildcard_eq db ("a/#") (by decide) (by decide),
    by decide, by decide, by decide, by decide, ?_⟩
  simp [tree4, msgA, msgAB, msgABC, msgX, mkMsg, TopicTree.addMessage,
    TopicTree.addAt, TopicTree.getMatchingTopics, TopicTree.traverseP,
    TopicTree.traverseAllL, splitTopic, splitSlash, replaceOrAppend,
    TopicNode.name, TopicNode.fullPath, TopicNode.messageCount,
    TopicNode.subscribed, TopicNode.lastMessage, TopicNode.children]

/-- C7 counterexample: `markSubscribed` on a path with no node is a
no-op — on the empty tree nothing is created, so a subscribe that
precedes the first message at the topic is not recorded, contrary to the
claim that the path is created anyway. -/
theorem C7_counterexample :
    TopicTree.markSubscribed ([] : List TopicNode) ("a") true = []
    ∧ TopicTree.findNode
        (TopicTree.markSubscribed ([] : List TopicNode) ("a") true) ("a") = none :=
  ⟨rfl, rfl⟩

/-- C7 amended: `markSubscribed(p, b)` sets the subscribed flag on the
node at exactly path `p` when such a node exists, leaving its other
fields and children intact; when no node exists at `p` the call is a
no-op — the path is not created, so a subscribe before the first message
at that topic is not recorded in the tree. -/
theorem C7_amended :
    ∀ (t : List TopicNode) (topic : String) (b : Bool),
      (TopicTree.findNode t topic = none →
        TopicTree.markSubscribed t topic b = t)
      ∧ (∀ n, TopicTree.findNode t topic = some n →
          TopicTree.findNode (TopicTree.markSubscribed t topic b) topic =
            some (TopicNode.mk n.name n.fullPath n.messageCount b n.lastMessage
              n.children)) :=
  fun t topic b =>
    ⟨fun h => setSub_not_found (splitTopic topic) t b h,
     fun n h => setSub_found (splitTopic topic) t b n h⟩

theorem C7_amended_witness :
    TopicTree.findNode
        (TopicTree.markSubscribed (TopicTree.addMessage [] msgA) ("a") true) ("a") =
      some (TopicNode.mk ("a") ("a") 1 true (some msgA) []) :=
  (C7_amended (TopicTree.addMessage [] msgA) ("a") true).2
    (TopicNode.mk ("a") ("a") 1 false (some msgA) []) rfl

/-- C8: absorbing a record into the tree increments `messageCount` by
exactly 1 and overwrites `lastMessage` only on the terminal node of the
topic path; every proper ancestor keeps its message count, last message
and subscribed flag (a freshly created ancestor carries the defaults 0 /
none / false); absorbing the three scenario records into an empty tree
yields count 0 at sensors and sensors/kitchen and count 1 at
sensors/kitchen/temp. -/
theorem C8_addMessage_touches_only_terminal :
    (∀ (t : List TopicNode) (m : MqttMessage) (parts : List String),
        splitTopic m.topic = parts → parts ≠ [] →
        (countAt (TopicTree.addMessage t m) parts = countAt t parts + 1
          ∧ lastAt (TopicTree.addMessage t m) parts = some m
          ∧ subAt (TopicTree.addMessage t m) parts = subAt t parts)
        ∧ (∀ q r : List String, q ≠ [] → r ≠ [] → q ++ r = parts →
            countAt (TopicTree.addMessage t m) q = countAt t q
            ∧ lastAt (TopicTree.addMessage t m) q = lastAt t q
            ∧ subAt (TopicTree.addMessage t m) q = subAt t q))
    ∧ (countAt tree3 [("sensors")] = 0
        ∧ countAt tree3 [("sensors"), ("kitchen")] = 0
        ∧ countAt tree3 [("sensors"), ("kitchen"), ("temp")] = 1) := by
  constructor
  · intro t m parts hsplit hne
    constructor
    · have := findNodeParts_addAt_self parts "" m t hne
      unfold TopicTree.addMessage
      rw [hsplit]
      exact this
    · intro q r hq hr hqr
      have := findNodeParts_addAt_ancestor q r "" m t hq hr
      unfold TopicTree.addMessage
      rw [hsplit, ← hqr]
      exact this
  · exact ⟨by decide, by decide, by decide⟩

theorem C8_witness :
    countAt (TopicTree.addMessage [] msgKT) [("sensors"), ("kitchen"), ("temp")] =
      countAt ([] : List TopicNode) [("sensors"), ("kitchen"), ("temp")] + 1 :=
  ((C8_addMessage_touches_only_terminal.1 [] msgKT
    [("sensors"), ("kitchen"), ("temp")] (by decide) (by decide)).1).1

/-- C10: the tree-wide message count equals the number of records
absorbed: every absorb increases `getTotalMessageCount` by exactly 1,
absorbing a sequence of n records into an empty (or freshly cleared)
tree yields total n, `clear` resets the total to 0, and `markSubscribed`
(the only other tree-returning operation) never changes the total. -/
theorem C10_total_count_invariant :
    (∀ (t : List TopicNode) (m : MqttMessage),
        TopicTree.getTotalMessageCount (TopicTree.addMessage t m) =
          TopicTree.getTotalMessageCount t + 1)
    ∧ (∀ ms : List MqttMessage,
        TopicTree.getTotalMessageCount (List.foldl TopicTree.addMessage [] ms) =
          ms.length)
    ∧ (∀ t : List TopicNode,
        TopicTree.getTotalMessageCount (TopicTree.clear t) = 0)
    ∧ (∀ (t : List TopicNode) (p : String) (b : Bool),
        TopicTree.getTotalMessageCount (TopicTree.markSubscribed t p b) =
          TopicTree.getTotalMessageCount t) := by
  refine ⟨?_, ?_,
    fun t => by simp [TopicTree.getTotalMessageCount, TopicTree.clear,
      TopicTree.totalCount], ?_⟩
  · intro t m
    exact totalCount_addMessage t m
  · intro ms
    have := totalCount_foldl ms []
    simpa [TopicTree.getTotalMessageCount, TopicTree.totalCount] using this
  · intro t p b
    exact totalCount_setSub (splitTopic p) t b
